import Mathlib

/-!
# whosthebusyboi: trace ingestion, ranking and name resolution

A shallow embedding of `main.go`:

* `handleStraceLine` (lines 77-117): the scan of one strace line and the update of the
  global counters `relations` and `totalPoints`;
* the body of the tick loop of `main` (lines 161-213): collecting the map into a slice,
  `sort.Slice`, the `height-3` truncation, and the lookup of the missing relation names.

Go values are modelled as follows.

* `[]byte` and `string` are lists of bytes (`List UInt8`); `string(b[lo:hi])` copies the bytes.
* `int` is `Int`. The counters only ever go up by one per recorded line, so the 64-bit
  wrap-around of Go's `int` is not modelled.
* A `map[K]V` is a function `K → Option V`; `none` is an absent key.
* A run-time panic (a slice expression out of range, or the explicit `panic(err)`) is the
  `error` branch of `Except`.
* Go ranges over a map in an unspecified order: the tick takes the order of that range as
  an input, a list of the map's entries.
* `sort.Slice` belongs to the Go standard library, not to this program: the tick takes it as
  a parameter, and `SortSliceContract` states what the library documents about it.
-/

namespace Whosthebusyboi

/-! ## Data model -/

/-- A Go `string` or `[]byte`: a sequence of bytes. -/
abbrev GoString := List UInt8

/-- The bytes of an ASCII string literal, used to write down concrete lines. -/
def ascii (s : String) : GoString := s.toList.map (fun c => UInt8.ofNat c.toNat)

/-- `type Relation struct { dbOID string; relOID string }` (lines 24-27). -/
structure Relation where
  dbOID : GoString
  relOID : GoString
  deriving DecidableEq, Repr

/-- `type RelationRank struct { r Relation; rank int }` (lines 29-32). -/
structure RelationRank where
  r : Relation
  rank : Int
  deriving DecidableEq, Repr

/-- The ways the modelled code can abort. -/
inductive RuntimePanic where
  /-- A slice expression `b[lo:hi]` with `lo > hi`, or a bound out of range. -/
  | sliceBoundsOutOfRange
  /-- The explicit `panic(err)` after a failed `db.Query` (line 193). -/
  | queryFailed
  deriving DecidableEq, Repr

/-- The globals `totalPoints` and `relations` (lines 34-35). -/
structure State where
  relations : Relation → Option Int
  totalPoints : Int

/-- The state at program start: `relations = make(map[Relation]int)`, `totalPoints = 0`. -/
def State.init : State := { relations := fun _ => none, totalPoints := 0 }

/-- Go's `relations[rel]` read: the zero value for an absent key. -/
def State.count (s : State) (rel : Relation) : Int := (s.relations rel).getD 0

/-! ## handleStraceLine -/

/-- The literal `open("base/` (line 81), 11 bytes. -/
def openBasePrefix : GoString := [111, 112, 101, 110, 40, 34, 98, 97, 115, 101, 47]

/-- The slice expression `b[lo:hi]`: Go panics unless `lo ≤ hi ≤ cap(b)`. Every upper bound
used below is at most `len(b)`, so the capacity is taken to be the length. -/
def slice (b : GoString) (lo hi : Nat) : Except RuntimePanic GoString :=
  if lo ≤ hi ∧ hi ≤ b.length then .ok ((b.take hi).drop lo) else .error .sliceBoundsOutOfRange

/-- The first loop (lines 86-93), run on the bytes `b[i:]` still ahead of index `i`, with
`dbStop` initialised to 0. Returns `(dbStop, i)` as they stand after the loop. -/
def scanSlash : GoString → Nat → Nat × Nat
  | [], i => (0, i)
  | x :: rest, i => if x = 47 then (i, i + 1) else scanSlash rest (i + 1)

/-- The second loop (lines 95-101), run on the bytes `b[i:]`, with `relStop` initialised
to 0. Returns `relStop` as it stands after the loop. -/
def scanDigits : GoString → Nat → Nat
  | [], _ => 0
  | x :: rest, i => if x < 48 || x > 57 then i else scanDigits rest (i + 1)

/-- Lines 78-106 of `handleStraceLine`: the two early returns (`none`), the two scans and
the construction of `rel`. -/
def parseStraceLine (b : GoString) : Except RuntimePanic (Option Relation) :=
  if b.length < 12 then .ok none
  else if b.take 11 ≠ openBasePrefix then .ok none
  else
    let i := 11
    let dbStart := i
    let (dbStop, i) := scanSlash (b.drop i) i
    let relStart := i
    let relStop := scanDigits (b.drop i) i
    match slice b dbStart dbStop with
    | .error e => .error e
    | .ok db =>
      match slice b relStart relStop with
      | .error e => .error e
      | .ok rl => .ok (some { dbOID := db, relOID := rl })

/-- Lines 108-116 of `handleStraceLine`: create the entry at 0 when the key is absent,
increment it, increment `totalPoints`. -/
def record (rel : Relation) (s : State) : State :=
  let m := if (s.relations rel).isSome then s.relations
           else Function.update s.relations rel (some 0)
  { relations := Function.update m rel (some ((m rel).getD 0 + 1))
    totalPoints := s.totalPoints + 1 }

/-- The function `handleStraceLine` (lines 77-117) as a state transformer. -/
def handleStraceLine (b : GoString) (s : State) : Except RuntimePanic State :=
  match parseStraceLine b with
  | .error e => .error e
  | .ok none => .ok s
  | .ok (some rel) => .ok (record rel s)

/-- The ingestion loop (lines 147-158) on the lines read so far: `handleStraceLine` on each
line in turn; a panic ends the run. -/
def runLines : List GoString → State → Except RuntimePanic State
  | [], s => .ok s
  | b :: rest, s =>
    match handleStraceLine b s with
    | .error e => .error e
    | .ok s1 => runLines rest s1

/-- The relations of the lines that `handleStraceLine` records, in order. -/
def parsedRelations (lines : List GoString) : List Relation :=
  lines.filterMap (fun b =>
    match parseStraceLine b with
    | .ok (some rel) => some rel
    | _ => none)

/-- An ASCII digit, `'0'` (48) to `'9'` (57). -/
def isAsciiDigit (x : UInt8) : Bool := decide (48 ≤ x.toNat ∧ x.toNat ≤ 57)

/-! ## The tick: collect, sort, truncate -/

/-- The type of `sort.Slice` at `[]RelationRank`: the `less` function (on elements rather
than on indices) and the slice, giving the slice after the call. -/
abbrev SortSlice :=
  (RelationRank → RelationRank → Bool) → List RelationRank → List RelationRank

/-- What the Go library documents about `sort.Slice`: the slice is rearranged (a
permutation), and for a `less` that is a strict weak ordering no later element is `less`
than an earlier one. The sort is not stable: nothing is said about elements that `less`
does not separate. -/
structure SortSliceContract (sortSlice : SortSlice) : Prop where
  perm : ∀ less l, (sortSlice less l).Perm l
  sorted : ∀ less l,
    (∀ a b, less a b = true → less b a = false) →
    (∀ a b c, less a b = false → less b c = false → less a c = false) →
    (sortSlice less l).Pairwise (fun a b => less b a = false)

/-- One pass of the inner loop of the Go library's `insertionSort`: the new element `x`
moves left past every element it is `less` than. The sorted part is held last element
first. -/
def insertBack (less : RelationRank → RelationRank → Bool) (x : RelationRank) :
    List RelationRank → List RelationRank
  | [] => [x]
  | y :: ys => if less x y then y :: insertBack less x ys else x :: y :: ys

/-- The insertion sort that the Go library's `sort.Slice` runs on a short slice (shorter
than 12 elements; up to 6 before Go 1.19, where a gap-6 pass precedes it). -/
def insertionSort : SortSlice := fun less l =>
  (l.foldl (fun acc x => insertBack less x acc) []).reverse

/-- The comparison passed to `sort.Slice` (lines 169-171): `ss[i].rank > ss[j].rank`. -/
def rankLess (a b : RelationRank) : Bool := decide (a.rank > b.rank)

/-- The slice expression `ss[:hi]` with an `int` bound: Go panics unless
`0 ≤ hi ≤ cap(ss)`. It is only evaluated under `len(ss) > hi`, so the capacity is taken to
be the length. -/
def sliceTo (ss : List RelationRank) (hi : Int) : Except RuntimePanic (List RelationRank) :=
  if 0 ≤ hi ∧ hi ≤ (ss.length : Int) then .ok (ss.take hi.toNat)
  else .error .sliceBoundsOutOfRange

/-- Lines 173-176: the row count of `terminal.GetSize(0)`, or 10 when it fails (`none`). -/
def heightOrDefault (size : Option Int) : Int :=
  match size with
  | some height => height
  | none => 10

/-- Lines 162-179 of the tick: `enum` is the sequence of entries that `range relations`
yields, `size` the answer of `terminal.GetSize`. -/
def tickRank (sortSlice : SortSlice) (enum : List (Relation × Int)) (size : Option Int) :
    Except RuntimePanic (List RelationRank) :=
  let ss := enum.map (fun kv => RelationRank.mk kv.1 kv.2)
  let ss := sortSlice rankLess ss
  let height := heightOrDefault size
  if (ss.length : Int) > height - 3 then sliceTo ss (height - 3) else .ok ss

/-! ## The tick: names of the ranked relations -/

/-- The global `relationMapping` (line 36). -/
abbrev NameCache := GoString → Option GoString

/-- The call `db.Query(..., pq.Array(missingRelations))` as the tick sees it: an error, or
the `(relfilenode, relname)` pairs that the `rows.Next()` loop stores. -/
abbrev NameService := List GoString → Except Unit (List (GoString × GoString))

/-- Lines 183-188: the `relOID` of every ranked entry that has no key in
`relationMapping`, in order. -/
def missingRelations (relationMapping : NameCache) (ss : List RelationRank) :
    List GoString :=
  (ss.filter (fun e => (relationMapping e.r.relOID).isNone)).map (fun e => e.r.relOID)

/-- Lines 195-200: `relationMapping[relfilenode] = relname` for every row, in order. -/
def insertRows (relationMapping : NameCache) (rows : List (GoString × GoString)) :
    NameCache :=
  rows.foldl (fun m row => Function.update m row.1 (some row.2)) relationMapping

/-- What one tick does with the service: the queries it sent, and `relationMapping`
afterwards (or the panic). -/
structure ResolveOutcome where
  queries : List (List GoString)
  cache : Except RuntimePanic NameCache

/-- Lines 183-202 of the tick. -/
def tickResolve (db : NameService) (relationMapping : NameCache)
    (ss : List RelationRank) : ResolveOutcome :=
  let missing := missingRelations relationMapping ss
  if missing.length > 0 then
    match db missing with
    | .error _ => { queries := [missing], cache := .error .queryFailed }
    | .ok rows => { queries := [missing], cache := .ok (insertRows relationMapping rows) }
  else { queries := [], cache := .ok relationMapping }

/-- A run of ticks, each with its ranked slice and the service as it answers at that
time: the queries sent over the whole run, in order, and `relationMapping` at the end. A
panic ends the run. -/
def runTicks : NameCache → List (NameService × List RelationRank) → ResolveOutcome
  | cache, [] => { queries := [], cache := .ok cache }
  | cache, (db, ss) :: rest =>
    let out := tickResolve db cache ss
    match out.cache with
    | .error e => { queries := out.queries, cache := .error e }
    | .ok c =>
      let r := runTicks c rest
      { queries := out.queries ++ r.queries, cache := r.cache }

/-- The rows that one tick stores (lines 195-200): the answer to the query it sent, and
nothing when it sent no query or the query failed. -/
def tickRows (db : NameService) (relationMapping : NameCache)
    (ss : List RelationRank) : List (GoString × GoString) :=
  let missing := missingRelations relationMapping ss
  if missing.length > 0 then
    match db missing with
    | .error _ => []
    | .ok rows => rows
  else []

/-- The rows received over a run of ticks, in order: the answers to the queries that were
sent. -/
def runTicksRows : NameCache → List (NameService × List RelationRank) →
    List (GoString × GoString)
  | _, [] => []
  | cache, (db, ss) :: rest =>
    tickRows db cache ss ++
      match (tickResolve db cache ss).cache with
      | .error _ => []
      | .ok c => runTicksRows c rest

/-- The empty `relationMapping` of program start. -/
def emptyCache : NameCache := fun _ => none

/-- A service that finds no row for any identifier. -/
def noRows : NameService := fun _ => .ok []

/-! ## Concrete inputs -/

/-- The line of the parsing example: an open of `base/12345/67890`. -/
def lineOpen : GoString := ascii "open(\"base/12345/67890\", O_RDWR) = 3"

/-- A line with no digit after the second separator. -/
def lineZeroDigits : GoString := ascii "open(\"base/123/abc\""

/-- A line as `ReadBytes` delivers it, newline included, with no separator after the
prefix: an open of the directory `base/pgsql_tmp`. -/
def lineNoSeparator : GoString :=
  ascii "open(\"base/pgsql_tmp\", O_RDONLY|O_DIRECTORY) = 5\n"

/-- A line whose digit run reaches the end of the line. -/
def lineDigitsToEnd : GoString := ascii "open(\"base/1/2"

/-- A line that does not start with the prefix. -/
def lineRead : GoString := ascii "read(3, \"base/1/100\", 8192) = 8192\n"

/-- A line that references the relation `(1,100)`. -/
def line100 : GoString := ascii "open(\"base/1/100\", O_RDWR) = 7\n"

/-- A line that references the relation `(1,200)`. -/
def line200 : GoString := ascii "open(\"base/1/200\", O_RDWR) = 8\n"

/-- The relation `(1,100)`. -/
def rel100 : Relation := { dbOID := ascii "1", relOID := ascii "100" }

/-- The relation `(1,200)`. -/
def rel200 : Relation := { dbOID := ascii "1", relOID := ascii "200" }

/-- The relation `(1,300)`. -/
def rel300 : Relation := { dbOID := ascii "1", relOID := ascii "300" }

/-- The relation `(12345,67890)` of the parsing example. -/
def rel67890 : Relation := { dbOID := ascii "12345", relOID := ascii "67890" }

/-- A service that knows every identifier it is asked for under the name `accounts`. -/
def pgClass : NameService := fun ids => .ok (ids.map (fun id => (id, ascii "accounts")))

/-- A service that has no row when asked for `67890` alone, and the row of `67890` for
every other query. -/
def lateService : NameService := fun ids =>
  if ids = [ascii "67890"] then .ok [] else .ok [(ascii "67890", ascii "accounts")]

/-! ## Facts about the scan -/

theorem notDigit_test (x : UInt8) :
    (decide (x < 48) || decide (x > 57)) = !isAsciiDigit x := by
  by_cases h : 48 ≤ x.toBitVec.toNat ∧ x.toBitVec.toNat ≤ 57
  · simp [isAsciiDigit, UInt8.lt_def, BitVec.lt_def, UInt8.toNat, h]
  · simp [isAsciiDigit, UInt8.lt_def, BitVec.lt_def, UInt8.toNat, h]
    omega

theorem scanSlash_found (c rest : GoString) (i : Nat) (hc : (47 : UInt8) ∉ c) :
    scanSlash (c ++ 47 :: rest) i = (i + c.length, i + c.length + 1) := by
  induction c generalizing i with
  | nil => simp [scanSlash]
  | cons x c ih =>
    have hx : x ≠ 47 := fun h => hc (by simp [h])
    have hc2 : (47 : UInt8) ∉ c := fun h => hc (by simp [h])
    simp [scanSlash, hx, ih (i + 1) hc2]
    omega

theorem scanSlash_absent (c : GoString) (i : Nat) (hc : (47 : UInt8) ∉ c) :
    scanSlash c i = (0, i + c.length) := by
  induction c generalizing i with
  | nil => simp [scanSlash]
  | cons x c ih =>
    have hx : x ≠ 47 := fun h => hc (by simp [h])
    have hc2 : (47 : UInt8) ∉ c := fun h => hc (by simp [h])
    simp [scanSlash, hx, ih (i + 1) hc2]
    omega

theorem scanDigits_stop (d rest : GoString) (x : UInt8) (i : Nat)
    (hd : ∀ y ∈ d, isAsciiDigit y = true) (hx : isAsciiDigit x = false) :
    scanDigits (d ++ x :: rest) i = i + d.length := by
  induction d generalizing i with
  | nil => simp [scanDigits, notDigit_test, hx]
  | cons y d ih =>
    have hy : isAsciiDigit y = true := hd y (by simp)
    have hd2 : ∀ z ∈ d, isAsciiDigit z = true := fun z hz => hd z (by simp [hz])
    simp [scanDigits, notDigit_test, hy, ih (i + 1) hd2]
    omega

theorem scanDigits_end (d : GoString) (i : Nat) (hd : ∀ y ∈ d, isAsciiDigit y = true) :
    scanDigits d i = 0 := by
  induction d generalizing i with
  | nil => simp [scanDigits]
  | cons y d ih =>
    have hy : isAsciiDigit y = true := hd y (by simp)
    have hd2 : ∀ z ∈ d, isAsciiDigit z = true := fun z hz => hd z (by simp [hz])
    simp [scanDigits, notDigit_test, hy, ih (i + 1) hd2]

theorem slice_mid (a m z : GoString) :
    slice (a ++ m ++ z) a.length (a.length + m.length) = .ok m := by
  have h : a.length + m.length ≤ (a ++ m ++ z).length := by simp
  simp only [slice, Nat.le_add_right, h, and_self, if_true]
  have : (a ++ m ++ z).take (a.length + m.length) = a ++ m := by
    rw [List.take_append_eq_append_take]
    simp
  rw [this]
  simp

theorem slice_inverted (b : GoString) (lo hi : Nat) (h : hi < lo) :
    slice b lo hi = .error .sliceBoundsOutOfRange := by
  have : ¬ lo ≤ hi := by omega
  simp [slice, this]

/-- The scan of a line that carries the prefix and at least one more byte. -/
theorem parseStraceLine_prefixed (rest : GoString) (h : 1 ≤ rest.length) :
    parseStraceLine (openBasePrefix ++ rest) =
      match slice (openBasePrefix ++ rest) 11 (scanSlash rest 11).1 with
      | .error e => .error e
      | .ok db =>
        match slice (openBasePrefix ++ rest) (scanSlash rest 11).2
            (scanDigits ((openBasePrefix ++ rest).drop (scanSlash rest 11).2)
              (scanSlash rest 11).2) with
        | .error e => .error e
        | .ok rl => .ok (some { dbOID := db, relOID := rl }) := by
  have hlen : ¬ (openBasePrefix ++ rest).length < 12 := by
    simp [openBasePrefix]; omega
  have htake : (openBasePrefix ++ rest).take 11 = openBasePrefix := by
    simp [openBasePrefix]
  have hdrop : (openBasePrefix ++ rest).drop 11 = rest := by
    simp [openBasePrefix]
  simp only [parseStraceLine, hlen, htake, hdrop, if_false, ne_eq, not_true_eq_false]

/-- The scan of a well-formed line yields the two identifiers. -/
theorem parseStraceLine_wellFormed (c d rest : GoString) (x : UInt8)
    (hc : (47 : UInt8) ∉ c) (hd : ∀ y ∈ d, isAsciiDigit y = true)
    (hx : isAsciiDigit x = false) :
    parseStraceLine (openBasePrefix ++ c ++ [47] ++ d ++ x :: rest) =
      .ok (some { dbOID := c, relOID := d }) := by
  have e1 : openBasePrefix ++ c ++ [47] ++ d ++ x :: rest
      = openBasePrefix ++ (c ++ 47 :: (d ++ x :: rest)) := by simp
  rw [e1, parseStraceLine_prefixed _ (by simp; omega), scanSlash_found _ _ _ hc]
  have e2 : openBasePrefix ++ (c ++ 47 :: (d ++ x :: rest))
      = openBasePrefix ++ c ++ (47 :: (d ++ x :: rest)) := by simp
  have e3 : openBasePrefix ++ (c ++ 47 :: (d ++ x :: rest))
      = (openBasePrefix ++ c ++ [47]) ++ d ++ (x :: rest) := by simp
  have s1 : slice (openBasePrefix ++ (c ++ 47 :: (d ++ x :: rest))) 11 (11 + c.length)
      = .ok c := by
    rw [e2]; exact slice_mid openBasePrefix c _
  have hdrop : (openBasePrefix ++ (c ++ 47 :: (d ++ x :: rest))).drop (11 + c.length + 1)
      = d ++ x :: rest := by
    rw [e3]
    have : (openBasePrefix ++ c ++ [47]).length = 11 + c.length + 1 := by
      simp [openBasePrefix]; omega
    rw [List.append_assoc, ← this, List.drop_left]
  have s2 : slice (openBasePrefix ++ (c ++ 47 :: (d ++ x :: rest))) (11 + c.length + 1)
      (11 + c.length + 1 + d.length) = .ok d := by
    rw [e3]
    have : (openBasePrefix ++ c ++ [47]).length = 11 + c.length + 1 := by
      simp [openBasePrefix]; omega
    rw [← this]; exact slice_mid _ d _
  simp only [s1, hdrop, scanDigits_stop d rest x _ hd hx, s2]


/-! ## Facts about the counters -/

theorem record_relations (rel : Relation) (s : State) :
    (record rel s).relations
      = Function.update s.relations rel (some (s.count rel + 1)) := by
  funext r
  by_cases hr : r = rel
  · subst hr
    cases h : s.relations r <;> simp [record, State.count, h]
  · cases h : s.relations rel <;> simp [record, State.count, h, Function.update, hr]

theorem record_totalPoints (rel : Relation) (s : State) :
    (record rel s).totalPoints = s.totalPoints + 1 := rfl

theorem record_count (rel r : Relation) (s : State) :
    (record rel s).count r = s.count r + (if rel = r then 1 else 0) := by
  by_cases hr : rel = r
  · subst hr
    simp [State.count, record_relations]
  · have hr2 : r ≠ rel := fun h => hr h.symm
    simp [State.count, record_relations, Function.update, hr, hr2]

theorem record_present (rel r : Relation) (s : State) :
    (record rel s).relations r ≠ none ↔ (s.relations r ≠ none ∨ r = rel) := by
  by_cases hr : r = rel
  · subst hr
    simp [record_relations]
  · simp [record_relations, Function.update, hr]

theorem record_eq (rel : Relation) (s : State) :
    record rel s = { relations := Function.update s.relations rel (some (s.count rel + 1))
                     totalPoints := s.totalPoints + 1 } := by
  have h := record_relations rel s
  cases hr : record rel s with
  | mk m t =>
    have ht : t = s.totalPoints + 1 := by
      have := record_totalPoints rel s
      rw [hr] at this; exact this
    rw [hr] at h
    simp only at h
    rw [h, ht]

/-- The state after recording a list of relations in turn. -/
theorem foldl_record_spec (rs : List Relation) (s : State) :
    (∀ r, (rs.foldl (fun st rel => record rel st) s).count r = s.count r + (rs.count r : Int)) ∧
    (∀ r, (rs.foldl (fun st rel => record rel st) s).relations r ≠ none
        ↔ (s.relations r ≠ none ∨ r ∈ rs)) ∧
    (rs.foldl (fun st rel => record rel st) s).totalPoints
        = s.totalPoints + (rs.length : Int) := by
  induction rs generalizing s with
  | nil => simp
  | cons rel rs ih =>
    obtain ⟨h1, h2, h3⟩ := ih (record rel s)
    refine ⟨fun r => ?_, fun r => ?_, ?_⟩
    · rw [List.foldl_cons, h1 r, record_count, List.count_cons]
      by_cases hr : rel = r
      · simp [hr]; omega
      · simp [hr]
    · rw [List.foldl_cons, h2 r, record_present]
      simp only [List.mem_cons]
      tauto
    · rw [List.foldl_cons, h3, record_totalPoints, List.length_cons]
      push_cast
      omega

/-- A run without a panic records the parsed relations in turn. -/
theorem runLines_eq_foldl (lines : List GoString) (s : State)
    (hok : ∀ b ∈ lines, ∃ o, parseStraceLine b = .ok o) :
    runLines lines s
      = .ok ((parsedRelations lines).foldl (fun st rel => record rel st) s) := by
  induction lines generalizing s with
  | nil => rfl
  | cons b rest ih =>
    have hrest : ∀ b ∈ rest, ∃ o, parseStraceLine b = .ok o :=
      fun x hx => hok x (by simp [hx])
    obtain ⟨o, ho⟩ := hok b (by simp)
    cases o with
    | none =>
      simp only [runLines, handleStraceLine, ho, parsedRelations, List.filterMap_cons]
      exact ih s hrest
    | some rel =>
      simp only [runLines, handleStraceLine, ho, parsedRelations, List.filterMap_cons,
        List.foldl_cons]
      exact ih (record rel s) hrest

/-- The counts over any duplicate-free list of the recorded keys add up to the number
of recorded lines. -/
theorem sum_counts_eq_length (rs keys : List Relation) (f : Relation → Int)
    (hf : ∀ r, f r = (rs.count r : Int)) (hnd : keys.Nodup)
    (hmem : ∀ r, r ∈ keys ↔ r ∈ rs) :
    (keys.map f).sum = (rs.length : Int) := by
  have hperm : keys.Perm rs.dedup :=
    (List.perm_ext_iff_of_nodup hnd (List.nodup_dedup rs)).mpr
      (fun r => by rw [hmem r, List.mem_dedup])
  have hfun : f = fun r => ((rs.count r : Nat) : Int) := funext hf
  rw [(hperm.map f).sum_eq, hfun]
  have := List.sum_map_count_dedup_eq_length rs
  calc (rs.dedup.map (fun r => ((rs.count r : Nat) : Int))).sum
      = (((rs.dedup.map (fun r => rs.count r)).sum : Nat) : Int) := by
        rw [Nat.cast_list_sum, List.map_map]; rfl
    _ = (rs.length : Int) := by rw [this]


/-! ## Facts about the ranking -/

theorem rankLess_asymm (a b : RelationRank) (h : rankLess a b = true) :
    rankLess b a = false := by
  simp only [rankLess, decide_eq_true_eq, decide_eq_false_iff_not] at h ⊢
  omega

theorem rankLess_negTrans (a b c : RelationRank) (h1 : rankLess a b = false)
    (h2 : rankLess b c = false) : rankLess a c = false := by
  simp only [rankLess, decide_eq_false_iff_not] at h1 h2 ⊢
  omega

theorem rankLess_false_iff (a b : RelationRank) : rankLess b a = false ↔ a.rank ≥ b.rank := by
  simp only [rankLess, decide_eq_false_iff_not]
  omega

theorem insertBack_perm (less : RelationRank → RelationRank → Bool) (x : RelationRank)
    (l : List RelationRank) : (insertBack less x l).Perm (x :: l) := by
  induction l with
  | nil => simp [insertBack]
  | cons y ys ih =>
    by_cases h : less x y = true
    · simp only [insertBack, h, if_true]
      exact (ih.cons y).trans (List.Perm.swap x y ys)
    · simp [insertBack, h]

theorem insertBack_pairwise (less : RelationRank → RelationRank → Bool)
    (hasymm : ∀ a b, less a b = true → less b a = false)
    (hneg : ∀ a b c, less a b = false → less b c = false → less a c = false)
    (x : RelationRank) (l : List RelationRank)
    (hl : l.Pairwise (fun a b => less a b = false)) :
    (insertBack less x l).Pairwise (fun a b => less a b = false) := by
  induction l with
  | nil => simp [insertBack]
  | cons y ys ih =>
    rw [List.pairwise_cons] at hl
    by_cases h : less x y = true
    · simp only [insertBack, h, if_true]
      rw [List.pairwise_cons]
      refine ⟨fun z hz => ?_, ih hl.2⟩
      rcases List.mem_cons.mp ((insertBack_perm less x ys).subset hz) with hzx | hzy
      · subst hzx; exact hasymm _ _ h
      · exact hl.1 z hzy
    · have hxy : less x y = false := by simpa using h
      simp only [insertBack, hxy, Bool.false_eq_true, if_false]
      rw [List.pairwise_cons, List.pairwise_cons]
      refine ⟨fun z hz => ?_, hl.1, hl.2⟩
      rcases List.mem_cons.mp hz with hzy | hzys
      · subst hzy; exact hxy
      · exact hneg _ _ _ hxy (hl.1 z hzys)

theorem foldl_insertBack (less : RelationRank → RelationRank → Bool)
    (hasymm : ∀ a b, less a b = true → less b a = false)
    (hneg : ∀ a b c, less a b = false → less b c = false → less a c = false)
    (l acc : List RelationRank) (hacc : acc.Pairwise (fun a b => less a b = false)) :
    (l.foldl (fun acc x => insertBack less x acc) acc).Pairwise
      (fun a b => less a b = false) := by
  induction l generalizing acc with
  | nil => exact hacc
  | cons x xs ih => exact ih _ (insertBack_pairwise less hasymm hneg x acc hacc)

theorem foldl_insertBack_perm (less : RelationRank → RelationRank → Bool)
    (l acc : List RelationRank) :
    (l.foldl (fun acc x => insertBack less x acc) acc).Perm (l.reverse ++ acc) := by
  induction l generalizing acc with
  | nil => simp
  | cons x xs ih =>
    rw [List.foldl_cons, List.reverse_cons, List.append_assoc]
    exact (ih _).trans ((insertBack_perm less x acc).append_left _)

/-- The library's insertion sort meets the documented contract of `sort.Slice`. -/
theorem insertionSort_contract : SortSliceContract insertionSort where
  perm := fun less l => by
    have h := foldl_insertBack_perm less l []
    rw [List.append_nil] at h
    exact (List.reverse_perm _).trans (h.trans (List.reverse_perm l))
  sorted := fun less l hasymm hneg => by
    have h := foldl_insertBack less hasymm hneg l [] List.Pairwise.nil
    exact List.pairwise_reverse.mpr h

/-- Two arrangements of the same entries, both in rank order, are equal when no two
entries have the same rank. -/
theorem sorted_unique (l1 l2 : List RelationRank) (hperm : l1.Perm l2)
    (h1 : l1.Pairwise (fun a b => rankLess b a = false))
    (h2 : l2.Pairwise (fun a b => rankLess b a = false))
    (hnd : (l1.map (fun e => e.rank)).Nodup) : l1 = l2 := by
  refine List.Perm.eq_of_sorted (fun a b ha hb hab hba => ?_) h1 h2 hperm
  have hb1 : b ∈ l1 := hperm.symm.subset hb
  have hr : a.rank = b.rank := by
    rw [rankLess_false_iff] at hab hba
    omega
  exact List.inj_on_of_nodup_map hnd ha hb1 hr

/-- The tick's ranking is the sorted slice cut to `height - 3` entries, and a panic when
`height - 3` is negative. -/
theorem tickRank_eq (sortSlice : SortSlice) (enum : List (Relation × Int))
    (size : Option Int) :
    tickRank sortSlice enum size =
      if heightOrDefault size - 3 < 0 then .error .sliceBoundsOutOfRange
      else .ok ((sortSlice rankLess (enum.map (fun kv => RelationRank.mk kv.1 kv.2))).take
        (heightOrDefault size - 3).toNat) := by
  simp only [tickRank]
  generalize sortSlice rankLess (enum.map (fun kv => RelationRank.mk kv.1 kv.2)) = ss
  generalize heightOrDefault size = height
  by_cases hneg : height - 3 < 0
  · have hgt : (ss.length : Int) > height - 3 := by omega
    have hnot : ¬ (0 ≤ height - 3 ∧ height - 3 ≤ (ss.length : Int)) := by omega
    rw [if_pos hgt, if_pos hneg, sliceTo, if_neg hnot]
  · by_cases hgt : (ss.length : Int) > height - 3
    · have hin : 0 ≤ height - 3 ∧ height - 3 ≤ (ss.length : Int) := by omega
      rw [if_pos hgt, if_neg hneg, sliceTo, if_pos hin]
    · have hle : ss.length ≤ (height - 3).toNat := by omega
      rw [if_neg hgt, if_neg hneg, List.take_of_length_le hle]


/-! ## Facts about the name lookup -/

theorem mem_missingRelations (cache : NameCache) (ss : List RelationRank) (id : GoString) :
    id ∈ missingRelations cache ss ↔ ((∃ e ∈ ss, e.r.relOID = id) ∧ cache id = none) := by
  simp only [missingRelations, List.mem_map, List.mem_filter, Option.isNone_iff_eq_none]
  constructor
  · rintro ⟨e, ⟨he, hnone⟩, rfl⟩
    exact ⟨⟨e, he, rfl⟩, hnone⟩
  · rintro ⟨⟨e, he, rfl⟩, hnone⟩
    exact ⟨e, ⟨he, hnone⟩, rfl⟩

theorem tickResolve_queries (db : NameService) (cache : NameCache)
    (ss : List RelationRank) :
    (tickResolve db cache ss).queries
      = if missingRelations cache ss = [] then [] else [missingRelations cache ss] := by
  unfold tickResolve
  by_cases h : missingRelations cache ss = []
  · simp [h]
  · have hpos : (missingRelations cache ss).length > 0 := List.length_pos.mpr h
    simp only [hpos, h, if_true, if_false]
    cases db (missingRelations cache ss) <;> rfl

theorem insertRows_present (rows : List (GoString × GoString)) (cache : NameCache)
    (id : GoString) (h : cache id ≠ none) : insertRows cache rows id ≠ none := by
  induction rows generalizing cache with
  | nil => exact h
  | cons row rows ih =>
    refine ih (Function.update cache row.1 (some row.2)) ?_
    by_cases hid : id = row.1
    · subst hid; simp
    · simpa [Function.update, hid] using h

theorem insertRows_returned (rows : List (GoString × GoString)) (cache : NameCache)
    (id name : GoString) (h : (id, name) ∈ rows) : insertRows cache rows id ≠ none := by
  induction rows generalizing cache with
  | nil => simp at h
  | cons row rows ih =>
    rcases List.mem_cons.mp h with hrow | hrest
    · subst hrow
      exact insertRows_present rows _ id (by simp)
    · exact ih _ hrest

theorem insertRows_absent (rows : List (GoString × GoString)) (cache : NameCache)
    (id : GoString) (h : cache id = none) (hrows : ∀ row ∈ rows, row.1 ≠ id) :
    insertRows cache rows id = none := by
  induction rows generalizing cache with
  | nil => exact h
  | cons row rows ih =>
    refine ih (Function.update cache row.1 (some row.2)) ?_
      (fun r hr => hrows r (by simp [hr]))
    have hne : id ≠ row.1 := fun e => hrows row (by simp) e.symm
    simpa [Function.update, hne] using h

theorem tickResolve_cache (db : NameService) (cache cache1 : NameCache)
    (ss : List RelationRank) (h : (tickResolve db cache ss).cache = .ok cache1) :
    cache1 = cache ∨
      ∃ rows, db (missingRelations cache ss) = .ok rows ∧ cache1 = insertRows cache rows := by
  unfold tickResolve at h
  by_cases hpos : (missingRelations cache ss).length > 0
  · simp only [hpos, if_true] at h
    cases hdb : db (missingRelations cache ss) with
    | error e => rw [hdb] at h; cases h
    | ok rows =>
      rw [hdb] at h
      exact Or.inr ⟨rows, rfl, by injection h with h; exact h.symm⟩
  · simp only [hpos, if_false] at h
    exact Or.inl (by injection h with h; exact h.symm)

theorem tickResolve_present (db : NameService) (cache cache1 : NameCache)
    (ss : List RelationRank) (h : (tickResolve db cache ss).cache = .ok cache1)
    (id : GoString) (hid : cache id ≠ none) : cache1 id ≠ none := by
  rcases tickResolve_cache db cache cache1 ss h with rfl | ⟨rows, _, rfl⟩
  · exact hid
  · exact insertRows_present rows cache id hid

/-- An identifier with a key in `relationMapping` is in no query of any later tick. -/
theorem runTicks_present (ticks : List (NameService × List RelationRank))
    (cache : NameCache) (id : GoString) (hid : cache id ≠ none) :
    ∀ q ∈ (runTicks cache ticks).queries, id ∉ q := by
  induction ticks generalizing cache with
  | nil => simp [runTicks]
  | cons t rest ih =>
    obtain ⟨db, ss⟩ := t
    have hfirst : ∀ q ∈ (tickResolve db cache ss).queries, id ∉ q := by
      intro q hq hmem
      rw [tickResolve_queries] at hq
      by_cases hm : missingRelations cache ss = []
      · simp [hm] at hq
      · simp only [hm, if_false, List.mem_singleton] at hq
        subst hq
        exact hid ((mem_missingRelations cache ss id).mp hmem).2
    intro q hq
    simp only [runTicks] at hq
    cases hc : (tickResolve db cache ss).cache with
    | error e =>
      rw [hc] at hq
      exact hfirst q hq
    | ok c =>
      rw [hc] at hq
      rcases List.mem_append.mp hq with h1 | h2
      · exact hfirst q h1
      · exact ih c (tickResolve_present db cache c ss hc id hid) q h2

/-- After a tick, `relationMapping` is the old one with the received rows stored. -/
theorem tickResolve_cache_rows (db : NameService) (cache cache1 : NameCache)
    (ss : List RelationRank) (h : (tickResolve db cache ss).cache = .ok cache1) :
    cache1 = insertRows cache (tickRows db cache ss) := by
  unfold tickResolve at h
  unfold tickRows
  by_cases hpos : (missingRelations cache ss).length > 0
  · simp only [hpos, if_true] at h ⊢
    cases hdb : db (missingRelations cache ss) with
    | error e => rw [hdb] at h; cases h
    | ok rows =>
      rw [hdb] at h
      injection h with h
      exact h.symm
  · simp only [hpos, if_false] at h ⊢
    injection h with h
    exact h.symm

/-- An identifier stays without a key in `relationMapping` as long as no row received
over the run is a row for it. -/
theorem runTicks_absent (ticks : List (NameService × List RelationRank))
    (cache cache1 : NameCache) (id : GoString) (hid : cache id = none)
    (hno : ∀ row ∈ runTicksRows cache ticks, row.1 ≠ id)
    (h : (runTicks cache ticks).cache = .ok cache1) : cache1 id = none := by
  induction ticks generalizing cache with
  | nil =>
    simp only [runTicks] at h
    injection h with h
    exact h ▸ hid
  | cons t rest ih =>
    obtain ⟨db, ss⟩ := t
    simp only [runTicks] at h
    simp only [runTicksRows] at hno
    cases hc : (tickResolve db cache ss).cache with
    | error e => rw [hc] at h; cases h
    | ok c =>
      rw [hc] at h hno
      have hc1 := tickResolve_cache_rows db cache c ss hc
      refine ih c ?_ (fun row hrow => hno row (List.mem_append.mpr (Or.inr hrow))) h
      rw [hc1]
      exact insertRows_absent _ cache id hid
        (fun row hrow => hno row (List.mem_append.mpr (Or.inl hrow)))

/-! ## The claims -/

/-- C1: a line made of the prefix `open("base/`, a container identifier `c` with no '/',
a '/', a non-empty run `d` of ASCII digits and a suffix that starts with a byte `x` that is
not an ASCII digit is parsed to `Relation{c, d}`, and `handleStraceLine` records exactly
that relation: its count goes up by one (from 0 when the key is absent), no other key
changes, and `totalPoints` goes up by one. -/
theorem handleStraceLine_records_relation (c d rest : GoString) (x : UInt8) (st : State)
    (hc : (47 : UInt8) ∉ c) (_hne : d ≠ []) (hd : ∀ y ∈ d, isAsciiDigit y = true)
    (hx : isAsciiDigit x = false) :
    parseStraceLine (openBasePrefix ++ c ++ [47] ++ d ++ x :: rest)
        = .ok (some { dbOID := c, relOID := d }) ∧
    handleStraceLine (openBasePrefix ++ c ++ [47] ++ d ++ x :: rest) st
        = .ok { relations := Function.update st.relations { dbOID := c, relOID := d }
                  (some (st.count { dbOID := c, relOID := d } + 1))
                totalPoints := st.totalPoints + 1 } := by
  have hp := parseStraceLine_wellFormed c d rest x hc hd hx
  refine ⟨hp, ?_⟩
  simp only [handleStraceLine, hp, record_eq]

/-- C1 at the line `open("base/12345/67890", O_RDWR) = 3`, from the initial state. -/
theorem handleStraceLine_records_relation_witness :
    parseStraceLine lineOpen = .ok (some rel67890) ∧
    handleStraceLine lineOpen State.init
        = .ok { relations := Function.update State.init.relations rel67890
                  (some (State.init.count rel67890 + 1))
                totalPoints := State.init.totalPoints + 1 } :=
  handleStraceLine_records_relation (ascii "12345") (ascii "67890") (ascii ", O_RDWR) = 3")
    34 State.init (by decide) (by decide) (by decide) (by decide)

/-- C2 (fails on the code): `handleStraceLine` panics with a slice expression out of range
on every line that has the prefix and at least one more byte but no '/' after the prefix
(`dbStop` stays 0 and `b[11:0]` is evaluated), and on every line whose digit run reaches
the end of the line (`relStop` stays 0 and `b[relStart:0]` is evaluated). -/
theorem handleStraceLine_panics (s : State) :
    (∀ rest : GoString, rest ≠ [] → (47 : UInt8) ∉ rest →
      handleStraceLine (openBasePrefix ++ rest) s = .error .sliceBoundsOutOfRange) ∧
    (∀ c d : GoString, (47 : UInt8) ∉ c → (∀ y ∈ d, isAsciiDigit y = true) →
      handleStraceLine (openBasePrefix ++ c ++ [47] ++ d) s
        = .error .sliceBoundsOutOfRange) := by
  constructor
  · intro rest hne hrest
    have hlen : 1 ≤ rest.length := List.length_pos.mpr hne
    simp only [handleStraceLine, parseStraceLine_prefixed rest hlen,
      scanSlash_absent rest 11 hrest, slice_inverted _ 11 0 (by omega)]
  · intro c d hc hd
    have e1 : openBasePrefix ++ c ++ [47] ++ d = openBasePrefix ++ (c ++ 47 :: d) := by simp
    have e2 : openBasePrefix ++ (c ++ 47 :: d) = openBasePrefix ++ c ++ (47 :: d) := by simp
    have e3 : openBasePrefix ++ (c ++ 47 :: d) = (openBasePrefix ++ c ++ [47]) ++ d := by simp
    have hlen : (openBasePrefix ++ c ++ [47]).length = 11 + c.length + 1 := by
      simp [openBasePrefix]; omega
    have s1 : slice (openBasePrefix ++ (c ++ 47 :: d)) 11 (11 + c.length) = .ok c := by
      rw [e2]; exact slice_mid openBasePrefix c _
    have hdrop : (openBasePrefix ++ (c ++ 47 :: d)).drop (11 + c.length + 1) = d := by
      rw [e3, ← hlen, List.drop_left]
    rw [e1]
    simp only [handleStraceLine, parseStraceLine_prefixed (c ++ 47 :: d) (by simp; omega),
      scanSlash_found c d 11 hc, s1, hdrop, scanDigits_end d _ hd,
      slice_inverted _ (11 + c.length + 1) 0 (by omega)]

/-- C2 at two lines: an open of `base/pgsql_tmp` (no separator after the prefix) and
`open("base/1/2` (digits up to the end of the line). -/
theorem handleStraceLine_panics_witness :
    handleStraceLine lineNoSeparator State.init = .error .sliceBoundsOutOfRange ∧
    handleStraceLine lineDigitsToEnd State.init = .error .sliceBoundsOutOfRange :=
  ⟨(handleStraceLine_panics State.init).1
      (ascii "pgsql_tmp\", O_RDONLY|O_DIRECTORY) = 5\n") (by decide) (by decide),
   (handleStraceLine_panics State.init).2 (ascii "1") (ascii "2") (by decide) (by decide)⟩


/-- C3 (fails on the code): the sequence of a line for `(1,100)`, an open of
`base/pgsql_tmp` and a line for `(1,200)` has no resulting state: `handleStraceLine`
panics on the second line and the run ends there. -/
theorem runLines_counts_counterexample :
    parseStraceLine line100 = .ok (some rel100) ∧
    parseStraceLine lineNoSeparator = .error .sliceBoundsOutOfRange ∧
    runLines [line100, lineNoSeparator, line200] State.init
      = .error .sliceBoundsOutOfRange ∧
    (∀ s, runLines [line100, lineNoSeparator, line200] State.init ≠ .ok s) := by
  have hrun : runLines [line100, lineNoSeparator, line200] State.init
      = .error .sliceBoundsOutOfRange := by rfl
  refine ⟨by rfl, by rfl, hrun, fun s h => ?_⟩
  rw [hrun] at h
  cases h

/-- C3, amended: from the initial state, a run of `handleStraceLine` over a sequence of
lines, none of which makes it panic, ends in a state in which the count of every relation
is the number of lines parsed to it, the keys of `relations` are the relations parsed,
`totalPoints` is the number M of recorded lines, and the counts of the keys add up to M. -/
theorem runLines_counts (lines : List GoString)
    (hok : ∀ b ∈ lines, (parseStraceLine b).isOk = true) :
    ∃ s, runLines lines State.init = .ok s ∧
      (∀ r, s.count r = ((parsedRelations lines).count r : Int)) ∧
      (∀ r, s.relations r ≠ none ↔ r ∈ parsedRelations lines) ∧
      s.totalPoints = ((parsedRelations lines).length : Int) ∧
      (∀ keys : List Relation, keys.Nodup → (∀ r, r ∈ keys ↔ s.relations r ≠ none) →
        (keys.map s.count).sum = ((parsedRelations lines).length : Int)) := by
  have hok2 : ∀ b ∈ lines, ∃ o, parseStraceLine b = .ok o := by
    intro b hb
    have h := hok b hb
    cases hp : parseStraceLine b with
    | error e => rw [hp] at h; cases h
    | ok o => exact ⟨o, rfl⟩
  obtain ⟨h1, h2, h3⟩ := foldl_record_spec (parsedRelations lines) State.init
  have hcount : ∀ r, ((parsedRelations lines).foldl (fun st rel => record rel st)
      State.init).count r = ((parsedRelations lines).count r : Int) := by
    intro r
    rw [h1 r]
    simp [State.count, State.init]
  have hkeys : ∀ r, ((parsedRelations lines).foldl (fun st rel => record rel st)
      State.init).relations r ≠ none ↔ r ∈ parsedRelations lines := by
    intro r
    rw [h2 r]
    simp [State.init]
  refine ⟨_, runLines_eq_foldl lines State.init hok2, hcount, hkeys, ?_, ?_⟩
  · rw [h3]
    simp [State.init]
  · intro keys hnd hmem
    exact sum_counts_eq_length (parsedRelations lines) keys _ hcount hnd
      (fun r => (hmem r).trans (hkeys r))

/-- C3, amended, at three lines for `(1,100)` and one for `(1,200)`: counts 3 and 1,
total 4. -/
theorem runLines_counts_witness :
    ∃ s, runLines [line100, line200, line100, line100] State.init = .ok s ∧
      s.count rel100 = 3 ∧ s.count rel200 = 1 ∧ s.count rel300 = 0 ∧
      s.totalPoints = 4 ∧ ([rel100, rel200].map s.count).sum = 4 := by
  obtain ⟨s, hrun, hcount, hkeys, htotal, hsum⟩ :=
    runLines_counts [line100, line200, line100, line100] (by decide)
  have hp : parsedRelations [line100, line200, line100, line100]
      = [rel100, rel200, rel100, rel100] := by rfl
  rw [hp] at hcount hkeys htotal hsum
  refine ⟨s, hrun, ?_, ?_, ?_, htotal, ?_⟩
  · rw [hcount]; decide
  · rw [hcount]; decide
  · rw [hcount]; decide
  · refine hsum [rel100, rel200] (by decide) (fun r => ?_)
    rw [hkeys r]
    simp only [List.mem_cons, List.mem_singleton, List.not_mem_nil, or_false]
    tauto

/-- C5: a line shorter than 12 bytes, or whose first 11 bytes are not `open("base/`, is
not parsed to a relation, and `handleStraceLine` returns the state it was given: the
same `relations` map and the same `totalPoints`. -/
theorem handleStraceLine_rejects (b : GoString) (s : State)
    (h : b.length < 12 ∨ b.take 11 ≠ openBasePrefix) :
    parseStraceLine b = .ok none ∧ handleStraceLine b s = .ok s := by
  have hp : parseStraceLine b = .ok none := by
    unfold parseStraceLine
    by_cases hlen : b.length < 12
    · rw [if_pos hlen]
    · rw [if_neg hlen]
      rcases h with h | h
      · exact absurd h hlen
      · rw [if_pos h]
  exact ⟨hp, by simp only [handleStraceLine, hp]⟩

/-- C5 at the 11-byte line `open("base/` and at a `read` line, from a state that already
holds a count. -/
theorem handleStraceLine_rejects_witness :
    handleStraceLine openBasePrefix (record rel100 State.init)
        = .ok (record rel100 State.init) ∧
    handleStraceLine lineRead (record rel100 State.init)
        = .ok (record rel100 State.init) :=
  ⟨(handleStraceLine_rejects openBasePrefix _ (Or.inl (by decide))).2,
   (handleStraceLine_rejects lineRead _ (Or.inr (by decide))).2⟩

/-- C6 (fails on the code): the line `open("base/123/abc"` has the prefix, the container
identifier `123`, a '/', and then the byte `a`, which is not a digit; `handleStraceLine`
records the relation `("123", "")` for it, so that its count and `totalPoints` go from 0
to 1. -/
theorem handleStraceLine_zero_digits_counterexample :
    lineZeroDigits = openBasePrefix ++ ascii "123" ++ [47] ++ ascii "abc\"" ∧
    handleStraceLine lineZeroDigits State.init
        = .ok (record { dbOID := ascii "123", relOID := [] } State.init) ∧
    State.init.relations { dbOID := ascii "123", relOID := [] } = none ∧
    (record { dbOID := ascii "123", relOID := [] } State.init).relations
        { dbOID := ascii "123", relOID := [] } = some 1 ∧
    State.init.totalPoints = 0 ∧
    (record { dbOID := ascii "123", relOID := [] } State.init).totalPoints = 1 ∧
    handleStraceLine lineZeroDigits State.init ≠ .ok State.init := by
  have hrun : handleStraceLine lineZeroDigits State.init
      = .ok (record { dbOID := ascii "123", relOID := [] } State.init) := by rfl
  refine ⟨by decide, hrun, rfl, by decide, rfl, by decide, ?_⟩
  rw [hrun]
  intro h
  injection h with h
  have ht := congrArg State.totalPoints h
  revert ht
  decide

/-- C6, amended: a line made of the prefix, a container identifier `c` with no '/', a '/'
and then a byte `x` that is not an ASCII digit is a match with an empty file-node
identifier: `handleStraceLine` records `Relation{c, ""}`, whose count goes up by one, and
`totalPoints` goes up by one. -/
theorem handleStraceLine_zero_digits (c rest : GoString) (x : UInt8) (st : State)
    (hc : (47 : UInt8) ∉ c) (hx : isAsciiDigit x = false) :
    parseStraceLine (openBasePrefix ++ c ++ [47] ++ x :: rest)
        = .ok (some { dbOID := c, relOID := [] }) ∧
    handleStraceLine (openBasePrefix ++ c ++ [47] ++ x :: rest) st
        = .ok { relations := Function.update st.relations { dbOID := c, relOID := [] }
                  (some (st.count { dbOID := c, relOID := [] } + 1))
                totalPoints := st.totalPoints + 1 } := by
  have hp := parseStraceLine_wellFormed c [] rest x hc (by simp) hx
  rw [List.append_nil] at hp
  refine ⟨hp, ?_⟩
  simp only [handleStraceLine, hp, record_eq]

/-- C6, amended, at the line `open("base/123/abc"`. -/
theorem handleStraceLine_zero_digits_witness :
    parseStraceLine lineZeroDigits = .ok (some { dbOID := ascii "123", relOID := [] }) ∧
    handleStraceLine lineZeroDigits State.init
        = .ok { relations := Function.update State.init.relations
                  { dbOID := ascii "123", relOID := [] }
                  (some (State.init.count { dbOID := ascii "123", relOID := [] } + 1))
                totalPoints := State.init.totalPoints + 1 } :=
  handleStraceLine_zero_digits (ascii "123") (ascii "bc\"") 97 State.init
    (by decide) (by decide)


/-- C4: with any `sort.Slice` that meets the library's contract, for every snapshot of n
entries with distinct keys and every row count `height ≥ 3`, the ranking step of a tick
(collect, sort, truncate) returns a slice of length `min n (height - 3)`, in non-increasing
order of count, without repetition, whose entries are entries of the snapshot, and every
entry of the snapshot that is left out has a count at most that of every entry kept. The
counts `{a:5, b:10, c:1}`, in whatever order the map is ranged over, give `[b, a, c]` for
`height - 3 = 3` and `[b, a]` for `height - 3 = 2`. -/
theorem tickRank_topK (sortSlice : SortSlice) (hsort : SortSliceContract sortSlice) :
    (∀ (snapshot : List (Relation × Int)) (height : Int),
      (snapshot.map Prod.fst).Nodup → 3 ≤ height →
      ∃ out, tickRank sortSlice snapshot (some height) = .ok out ∧
        out.length = min snapshot.length (height - 3).toNat ∧
        out.Pairwise (fun e1 e2 => e1.rank ≥ e2.rank) ∧
        out.Nodup ∧
        (∀ e ∈ out, (e.r, e.rank) ∈ snapshot) ∧
        (∀ p ∈ snapshot, RelationRank.mk p.1 p.2 ∉ out → ∀ e ∈ out, p.2 ≤ e.rank)) ∧
    (∀ (a b c : Relation) (enum : List (Relation × Int)),
      enum.Perm [(a, 5), (b, 10), (c, 1)] →
      tickRank sortSlice enum (some 6)
          = .ok [{ r := b, rank := 10 }, { r := a, rank := 5 }, { r := c, rank := 1 }] ∧
      tickRank sortSlice enum (some 5)
          = .ok [{ r := b, rank := 10 }, { r := a, rank := 5 }]) := by
  constructor
  · intro snapshot height hkeys hh
    have hnn : ¬ (heightOrDefault (some height) - 3 < 0) := by
      simp only [heightOrDefault]; omega
    have hperm := hsort.perm rankLess (snapshot.map (fun kv => RelationRank.mk kv.1 kv.2))
    have hsorted := hsort.sorted rankLess
      (snapshot.map (fun kv => RelationRank.mk kv.1 kv.2)) rankLess_asymm rankLess_negTrans
    have hnd0 : (snapshot.map (fun kv => RelationRank.mk kv.1 kv.2)).Nodup := by
      refine List.Nodup.of_map (fun e => e.r) ?_
      rw [List.map_map]
      exact hkeys
    have hnd := hperm.nodup_iff.mpr hnd0
    refine ⟨_, by rw [tickRank_eq, if_neg hnn], ?_, ?_, ?_, ?_, ?_⟩
    · rw [List.length_take, hperm.length_eq, List.length_map]
      simp only [heightOrDefault]
      exact Nat.min_comm _ _
    · exact (hsorted.sublist (List.take_sublist _ _)).imp
        (fun {e1 e2} h => (rankLess_false_iff e1 e2).mp h)
    · exact hnd.sublist (List.take_sublist _ _)
    · intro e he
      have he1 := hperm.subset (List.mem_of_mem_take he)
      obtain ⟨p, hp, rfl⟩ := List.mem_map.mp he1
      exact hp
    · intro p hp hout e he
      have hmem : RelationRank.mk p.1 p.2
          ∈ sortSlice rankLess (snapshot.map (fun kv => RelationRank.mk kv.1 kv.2)) :=
        hperm.symm.subset (List.mem_map.mpr ⟨p, hp, rfl⟩)
      rw [← List.take_append_drop (heightOrDefault (some height) - 3).toNat
        (sortSlice rankLess (snapshot.map (fun kv => RelationRank.mk kv.1 kv.2)))] at hmem hsorted
      rcases List.mem_append.mp hmem with h1 | h2
      · exact absurd h1 hout
      · have := (List.pairwise_append.mp hsorted).2.2 e he _ h2
        exact (rankLess_false_iff e _).mp this
  · intro a b c enum hperm
    have hp : (sortSlice rankLess (enum.map (fun kv => RelationRank.mk kv.1 kv.2))).Perm
        [{ r := b, rank := 10 }, { r := a, rank := 5 }, { r := c, rank := 1 }] := by
      refine (hsort.perm _ _).trans ((hperm.map _).trans ?_)
      exact List.Perm.trans (List.Perm.swap _ _ _) (List.Perm.refl _)
    have hs := hsort.sorted rankLess (enum.map (fun kv => RelationRank.mk kv.1 kv.2))
      rankLess_asymm rankLess_negTrans
    have heq := sorted_unique _ _ hp.symm (by simp [rankLess]) hs (by simp)
    constructor
    · rw [tickRank_eq, ← heq]; rfl
    · rw [tickRank_eq, ← heq]; rfl

/-- C4 with the library's insertion sort, at the counts `{(1,100):5, (1,200):10,
(1,300):1}` and 5 rows, and at another range order of the same map with 6 rows. -/
theorem tickRank_topK_witness :
    (∃ out, tickRank insertionSort [(rel100, 5), (rel200, 10), (rel300, 1)] (some 5)
        = .ok out ∧
      out.length = min [(rel100, (5 : Int)), (rel200, 10), (rel300, 1)].length
        ((5 : Int) - 3).toNat ∧
      out.Pairwise (fun e1 e2 => e1.rank ≥ e2.rank) ∧
      out.Nodup ∧
      (∀ e ∈ out, (e.r, e.rank) ∈ [(rel100, (5 : Int)), (rel200, 10), (rel300, 1)]) ∧
      (∀ p ∈ [(rel100, (5 : Int)), (rel200, 10), (rel300, 1)],
        RelationRank.mk p.1 p.2 ∉ out → ∀ e ∈ out, p.2 ≤ e.rank)) ∧
    tickRank insertionSort [(rel300, 1), (rel100, 5), (rel200, 10)] (some 6)
      = .ok [{ r := rel200, rank := 10 }, { r := rel100, rank := 5 },
          { r := rel300, rank := 1 }] :=
  ⟨(tickRank_topK insertionSort insertionSort_contract).1
      [(rel100, 5), (rel200, 10), (rel300, 1)] 5 (by decide) (by decide),
   ((tickRank_topK insertionSort insertionSort_contract).2 rel100 rel200 rel300
      [(rel300, 1), (rel100, 5), (rel200, 10)] (by decide)).1⟩

/-- C7 (fails on the code): for every snapshot and every row count below 3 the
truncation step evaluates `ss[:height-3]` with a negative bound, and the tick panics; no
floor at zero is applied. -/
theorem tickRank_panics_below_three (sortSlice : SortSlice)
    (snapshot : List (Relation × Int)) (height : Int) (h : height < 3) :
    tickRank sortSlice snapshot (some height) = .error .sliceBoundsOutOfRange := by
  have hneg : heightOrDefault (some height) - 3 < 0 := by
    simp only [heightOrDefault]; omega
  rw [tickRank_eq, if_pos hneg]

/-- C7 at the empty snapshot with 2 rows and at a one-entry snapshot with 0 rows. -/
theorem tickRank_panics_below_three_witness :
    tickRank insertionSort [] (some 2) = .error .sliceBoundsOutOfRange ∧
    tickRank insertionSort [(rel100, 3)] (some 0) = .error .sliceBoundsOutOfRange :=
  ⟨tickRank_panics_below_three insertionSort [] 2 (by decide),
   tickRank_panics_below_three insertionSort [(rel100, 3)] 0 (by decide)⟩

/-- C10 (fails on the code): the library's insertion sort meets the contract of
`sort.Slice`, and with it the two range orders of the map `{(1,100):5, (1,200):5}` are
ranked differently: each comes out in the order it went in. -/
theorem tickRank_ties_counterexample :
    SortSliceContract insertionSort ∧
    List.Perm [(rel100, (5 : Int)), (rel200, 5)] [(rel200, 5), (rel100, 5)] ∧
    tickRank insertionSort [(rel100, 5), (rel200, 5)] (some 10)
      = .ok [{ r := rel100, rank := 5 }, { r := rel200, rank := 5 }] ∧
    tickRank insertionSort [(rel200, 5), (rel100, 5)] (some 10)
      = .ok [{ r := rel200, rank := 5 }, { r := rel100, rank := 5 }] ∧
    tickRank insertionSort [(rel100, 5), (rel200, 5)] (some 10)
      ≠ tickRank insertionSort [(rel200, 5), (rel100, 5)] (some 10) := by
  have h1 : tickRank insertionSort [(rel100, 5), (rel200, 5)] (some 10)
      = .ok [{ r := rel100, rank := 5 }, { r := rel200, rank := 5 }] := by rfl
  have h2 : tickRank insertionSort [(rel200, 5), (rel100, 5)] (some 10)
      = .ok [{ r := rel200, rank := 5 }, { r := rel100, rank := 5 }] := by rfl
  refine ⟨insertionSort_contract, by decide, h1, h2, ?_⟩
  rw [h1, h2]
  intro h
  injection h with h
  revert h
  decide

/-- C10, amended: with any `sort.Slice` that meets the library's contract, two range
orders of the same entries are ranked identically whenever the counts are pairwise
distinct; nothing is promised for entries with equal counts. -/
theorem tickRank_deterministic_of_distinct_counts (sortSlice : SortSlice)
    (hsort : SortSliceContract sortSlice)
    (e1 e2 : List (Relation × Int)) (hperm : e1.Perm e2)
    (hdistinct : (e1.map Prod.snd).Nodup) (size : Option Int) :
    tickRank sortSlice e1 size = tickRank sortSlice e2 size := by
  rw [tickRank_eq, tickRank_eq]
  have hp : (sortSlice rankLess (e1.map (fun kv => RelationRank.mk kv.1 kv.2))).Perm
      (sortSlice rankLess (e2.map (fun kv => RelationRank.mk kv.1 kv.2))) :=
    (hsort.perm _ _).trans ((hperm.map _).trans (hsort.perm _ _).symm)
  have hnd : ((sortSlice rankLess (e1.map (fun kv => RelationRank.mk kv.1 kv.2))).map
      (fun e => e.rank)).Nodup := by
    have : ((e1.map (fun kv => RelationRank.mk kv.1 kv.2)).map (fun e => e.rank))
        = e1.map Prod.snd := by
      rw [List.map_map]; rfl
    exact (((hsort.perm rankLess _).map _).nodup_iff).mpr (this ▸ hdistinct)
  rw [sorted_unique _ _ hp (hsort.sorted _ _ rankLess_asymm rankLess_negTrans)
    (hsort.sorted _ _ rankLess_asymm rankLess_negTrans) hnd]

/-- C10, amended, with the library's insertion sort at two range orders of the counts
`{(1,100):5, (1,200):10, (1,300):1}`. -/
theorem tickRank_deterministic_of_distinct_counts_witness :
    tickRank insertionSort [(rel100, 5), (rel200, 10), (rel300, 1)] (some 5)
      = tickRank insertionSort [(rel300, 1), (rel100, 5), (rel200, 10)] (some 5) :=
  tickRank_deterministic_of_distinct_counts insertionSort insertionSort_contract
    [(rel100, 5), (rel200, 10), (rel300, 1)] [(rel300, 1), (rel100, 5), (rel200, 10)]
    (by decide) (by decide) (some 5)


/-- C8: on a tick, for every name cache and every ranked slice, at most one query is sent;
the identifiers of a query are exactly the `relOID`s of the ranked entries that have no
key in the cache; no query is sent when there is none, and one is sent otherwise. Every
identifier of a returned row has a key in the cache after the tick, and no later tick of
any run asks for it again. -/
theorem tickResolve_asks_exactly_missing (db : NameService) (cache : NameCache)
    (ss : List RelationRank) :
    (tickResolve db cache ss).queries.length ≤ 1 ∧
    (∀ q ∈ (tickResolve db cache ss).queries, ∀ id,
      id ∈ q ↔ ((∃ e ∈ ss, e.r.relOID = id) ∧ cache id = none)) ∧
    ((∀ e ∈ ss, cache e.r.relOID ≠ none) → (tickResolve db cache ss).queries = []) ∧
    ((∃ e ∈ ss, cache e.r.relOID = none) → (tickResolve db cache ss).queries.length = 1) ∧
    (∀ rows cache1, (tickResolve db cache ss).queries ≠ [] →
      db (missingRelations cache ss) = .ok rows →
      (tickResolve db cache ss).cache = .ok cache1 →
      ∀ id name, (id, name) ∈ rows →
        cache1 id ≠ none ∧
        ∀ later : List (NameService × List RelationRank),
          ∀ q ∈ (runTicks cache1 later).queries, id ∉ q) := by
  rw [tickResolve_queries]
  refine ⟨?_, ?_, ?_, ?_, ?_⟩
  · split <;> simp
  · intro q hq id
    by_cases hm : missingRelations cache ss = []
    · simp [hm] at hq
    · simp only [hm, if_false, List.mem_singleton] at hq
      subst hq
      exact mem_missingRelations cache ss id
  · intro hall
    have hm : missingRelations cache ss = [] := by
      apply List.eq_nil_iff_forall_not_mem.mpr
      intro id hid
      obtain ⟨⟨e, he, rfl⟩, hnone⟩ := (mem_missingRelations cache ss id).mp hid
      exact hall e he hnone
    simp [hm]
  · rintro ⟨e, he, hnone⟩
    have hm : missingRelations cache ss ≠ [] := by
      intro h
      have : e.r.relOID ∈ missingRelations cache ss :=
        (mem_missingRelations cache ss _).mpr ⟨⟨e, he, rfl⟩, hnone⟩
      rw [h] at this
      simp at this
    simp [hm]
  · intro rows cache1 hq hdb hcache id name hrow
    have hm : missingRelations cache ss ≠ [] := by
      intro h
      simp [h] at hq
    have hc1 : cache1 = insertRows cache rows := by
      unfold tickResolve at hcache
      have hpos : (missingRelations cache ss).length > 0 := List.length_pos.mpr hm
      simp only [hpos, if_true, hdb] at hcache
      injection hcache with hcache
      exact hcache.symm
    have hpres : cache1 id ≠ none := hc1 ▸ insertRows_returned rows cache id name hrow
    exact ⟨hpres, fun later => runTicks_present later cache1 id hpres⟩


/-- C8 at the identifier `67890`, absent from the empty cache: the tick sends the one
query `["67890"]`; the service returns its name, and a later tick that ranks it again
sends no query for it. -/
theorem tickResolve_asks_exactly_missing_witness :
    (tickResolve pgClass emptyCache [{ r := rel67890, rank := 3 }]).queries
      = [[ascii "67890"]] ∧
    (runTicks emptyCache [(pgClass, [{ r := rel67890, rank := 3 }]),
        (pgClass, [{ r := rel67890, rank := 4 }])]).queries = [[ascii "67890"]] ∧
    (insertRows emptyCache [(ascii "67890", ascii "accounts")] (ascii "67890") ≠ none ∧
      ∀ later : List (NameService × List RelationRank),
        ∀ q ∈ (runTicks (insertRows emptyCache [(ascii "67890", ascii "accounts")])
          later).queries, ascii "67890" ∉ q) :=
  ⟨by rfl, by rfl,
   (tickResolve_asks_exactly_missing pgClass emptyCache
      [{ r := rel67890, rank := 3 }]).2.2.2.2
      [(ascii "67890", ascii "accounts")]
      (insertRows emptyCache [(ascii "67890", ascii "accounts")])
      (by decide) (by rfl) (by rfl) (ascii "67890") (ascii "accounts") (by decide)⟩

/-- C9 (fails on the code): the identifier `67890` is queried on the first tick, the
service returns no row for it, and the second and the third tick, which still rank it,
each query it again. -/
theorem tickResolve_retry_counterexample :
    (tickResolve noRows emptyCache [{ r := rel67890, rank := 3 }]).queries
      = [[ascii "67890"]] ∧
    noRows [ascii "67890"] = .ok [] ∧
    (runTicks emptyCache [(noRows, [{ r := rel67890, rank := 3 }]),
        (noRows, [{ r := rel67890, rank := 4 }]),
        (noRows, [{ r := rel67890, rank := 5 }])]).queries
      = [[ascii "67890"], [ascii "67890"], [ascii "67890"]] :=
  ⟨by rfl, by rfl, by rfl⟩

/-- C9, amended: an identifier that has no key in the cache and for which no answer
received over a run of ticks has a row is still without a key after the run, and it is
retried: every later tick whose ranked slice contains it sends one query, and the query
includes it. -/
theorem tickResolve_requeries_unresolved
    (earlier : List (NameService × List RelationRank)) (cache cache1 : NameCache)
    (id : GoString) (db : NameService) (ss : List RelationRank)
    (hid : cache id = none)
    (hno : ∀ row ∈ runTicksRows cache earlier, row.1 ≠ id)
    (hrun : (runTicks cache earlier).cache = .ok cache1)
    (hview : ∃ e ∈ ss, e.r.relOID = id) :
    cache1 id = none ∧
    (tickResolve db cache1 ss).queries = [missingRelations cache1 ss] ∧
    id ∈ missingRelations cache1 ss := by
  have habs := runTicks_absent earlier cache cache1 id hid hno hrun
  have hmem : id ∈ missingRelations cache1 ss :=
    (mem_missingRelations cache1 ss id).mpr ⟨hview, habs⟩
  have hm : missingRelations cache1 ss ≠ [] := List.ne_nil_of_mem hmem
  refine ⟨habs, ?_, hmem⟩
  rw [tickResolve_queries, if_neg hm]

/-- C9, amended, at the identifier `67890` after one tick on which it was queried and the
answer received had no row, with a service that has the row for other queries. -/
theorem tickResolve_requeries_unresolved_witness :
    (runTicks emptyCache [(lateService, [{ r := rel67890, rank := 3 }])]).queries
      = [[ascii "67890"]] ∧
    runTicksRows emptyCache [(lateService, [{ r := rel67890, rank := 3 }])] = [] ∧
    lateService [ascii "12345", ascii "67890"]
      = .ok [(ascii "67890", ascii "accounts")] ∧
    (emptyCache (ascii "67890") = none ∧
      (tickResolve lateService emptyCache [{ r := rel67890, rank := 4 }]).queries
        = [missingRelations emptyCache [{ r := rel67890, rank := 4 }]] ∧
      ascii "67890" ∈ missingRelations emptyCache [{ r := rel67890, rank := 4 }]) :=
  ⟨by rfl, by rfl, by rfl,
   tickResolve_requeries_unresolved [(lateService, [{ r := rel67890, rank := 3 }])]
    emptyCache emptyCache (ascii "67890") lateService [{ r := rel67890, rank := 4 }]
    rfl
    (fun row hrow => by
      have hrows : runTicksRows emptyCache
          [(lateService, [{ r := rel67890, rank := 3 }])] = [] := by rfl
      rw [hrows] at hrow
      cases hrow)
    (by rfl)
    ⟨{ r := rel67890, rank := 4 }, by decide, by rfl⟩⟩

end Whosthebusyboi
